import Mathlib

/-!
Verification of the blind-ai real-time audio streaming core.

The development shallowly embeds the TypeScript source:
* the sample codec `float32ToBase64` / `base64ToFloat32` (16-bit PCM
  quantization plus base64 framing), with samples as exact rationals —
  every floating-point operation the source performs on these values
  (multiplication of a float32 sample by 32767 or 32768, truncation to
  int16, division of an int16 by 32768) is exact in double precision,
  so rational arithmetic models it faithfully;
* the playback scheduler (`enqueueAudio`, `playNextChunk`,
  `clearAudioQueue`) as a state machine over an explicit state record,
  with the audio clock reading passed in at each step;
* the WebSocket send-gating of the microphone worklet handler and
  `sendVideoFrame`, and the `connect` entry point;
* the server-message dispatch (`onmessage`) over a tagged model of the
  wire schema;
* the Twilio emergency-SMS server action, with the external API call
  outcome passed as a parameter.
-/

namespace BlindAI

/-! ## Sample codec (float32ToBase64 / base64ToFloat32) -/

/-- Truncation toward zero, as performed by the JavaScript `ToInt16`
conversion when a number is stored into an `Int16Array`. -/
def truncQ (q : ℚ) : ℤ := if 0 ≤ q then ⌊q⌋ else ⌈q⌉

/-- One sample of the encoder's quantization loop:
`const s = Math.max(-1, Math.min(1, buffer[i])); pcm16[i] = s < 0 ? s * 0x8000 : s * 0x7FFF;` -/
def quantize (x : ℚ) : ℤ :=
  let s := max (-1 : ℚ) (min 1 x)
  if s < 0 then truncQ (s * 32768) else truncQ (s * 32767)

/-- One sample of the decoder's loop: `float32[i] = int16[i] / 32768.0`. -/
def dequantize (k : ℤ) : ℚ := (k : ℚ) / 32768

/-- The two little-endian bytes of a 16-bit integer as stored in the
`Int16Array` backing buffer and read out through `Uint8Array`. -/
def int16ToBytes (k : ℤ) : List ℕ :=
  let m := (k % 65536).toNat
  [m % 256, m / 256]

/-- Byte serialization of the whole `Int16Array` (`new Uint8Array(pcm16.buffer)`). -/
def int16sToBytes : List ℤ → List ℕ
  | [] => []
  | k :: rest => int16ToBytes k ++ int16sToBytes rest

/-- Reading the byte buffer back as 16-bit signed integers
(`new Int16Array(bytes.buffer)`), two little-endian bytes per value. -/
def bytesToInt16s : List ℕ → List ℤ
  | b0 :: b1 :: rest =>
    (if b0 + 256 * b1 < 32768 then ((b0 + 256 * b1 : ℕ) : ℤ)
     else ((b0 + 256 * b1 : ℕ) : ℤ) - 65536) :: bytesToInt16s rest
  | _ => []

/-- Character code of the base64 digit for a 6-bit value (the alphabet
`A–Z a–z 0–9 + /` used by `btoa`). -/
def b64char (n : ℕ) : ℕ :=
  if n < 26 then 65 + n
  else if n < 52 then 97 + (n - 26)
  else if n < 62 then 48 + (n - 52)
  else if n = 62 then 43
  else 47

/-- Inverse of `b64char` on the base64 alphabet (as used by `atob`). -/
def b64val (c : ℕ) : ℕ :=
  if 65 ≤ c ∧ c ≤ 90 then c - 65
  else if 97 ≤ c ∧ c ≤ 122 then c - 97 + 26
  else if 48 ≤ c ∧ c ≤ 57 then c - 48 + 52
  else if c = 43 then 62
  else 63

/-- `btoa` on a byte sequence: 3 bytes become 4 base64 characters, a
1- or 2-byte tail is padded with `=` (character code 61). -/
def btoa : List ℕ → List ℕ
  | [] => []
  | [b0] => [b64char (b0 / 4), b64char (b0 % 4 * 16), 61, 61]
  | [b0, b1] =>
    [b64char (b0 / 4), b64char (b0 % 4 * 16 + b1 / 16), b64char (b1 % 16 * 4), 61]
  | b0 :: b1 :: b2 :: rest =>
    b64char (b0 / 4) :: b64char (b0 % 4 * 16 + b1 / 16) ::
    b64char (b1 % 16 * 4 + b2 / 64) :: b64char (b2 % 64) :: btoa rest

/-- `atob` on a base64 character sequence, honouring `=` padding. -/
def atob : List ℕ → List ℕ
  | c0 :: c1 :: c2 :: c3 :: rest =>
    if c2 = 61 then [b64val c0 * 4 + b64val c1 / 16]
    else if c3 = 61 then
      [b64val c0 * 4 + b64val c1 / 16, b64val c1 % 16 * 16 + b64val c2 / 4]
    else
      (b64val c0 * 4 + b64val c1 / 16) :: (b64val c1 % 16 * 16 + b64val c2 / 4) ::
      (b64val c2 % 4 * 64 + b64val c3) :: atob rest
  | _ => []

/-- `float32ToBase64`: quantize every sample to int16, serialize the
buffer to bytes, frame as base64 text (returned as character codes). -/
def float32ToBase64 (buffer : List ℚ) : List ℕ :=
  btoa (int16sToBytes (buffer.map quantize))

/-- `base64ToFloat32`: undo the base64 framing, reinterpret the bytes as
16-bit signed integers, divide each by 32768.0. -/
def base64ToFloat32 (base64 : List ℕ) : List ℚ :=
  (bytesToInt16s (atob base64)).map dequantize

/-! ### Codec lemmas -/

lemma b64val_b64char : ∀ n : ℕ, n < 64 → b64val (b64char n) = n := by decide

lemma b64char_ne_61 : ∀ n : ℕ, n < 64 → b64char n ≠ 61 := by decide

lemma atob_btoa : ∀ bs : List ℕ, (∀ b ∈ bs, b < 256) → atob (btoa bs) = bs := by
  intro bs
  induction bs using btoa.induct with
  | case1 =>
    intro _
    simp [btoa, atob]
  | case2 b0 =>
    intro h
    have hb0 : b0 < 256 := h b0 (by simp)
    rw [btoa, atob]
    rw [if_pos rfl]
    rw [b64val_b64char _ (by omega), b64val_b64char _ (by omega)]
    congr 1
    omega
  | case3 b0 b1 =>
    intro h
    have hb0 : b0 < 256 := h b0 (by simp)
    have hb1 : b1 < 256 := h b1 (by simp)
    rw [btoa, atob]
    rw [if_neg (b64char_ne_61 _ (by omega)), if_pos rfl]
    rw [b64val_b64char _ (by omega), b64val_b64char _ (by omega),
        b64val_b64char _ (by omega)]
    congr 2
    · omega
    · omega
  | case4 b0 b1 b2 rest ih =>
    intro h
    have hb0 : b0 < 256 := h b0 (by simp)
    have hb1 : b1 < 256 := h b1 (by simp)
    have hb2 : b2 < 256 := h b2 (by simp)
    rw [btoa, atob]
    rw [if_neg (b64char_ne_61 _ (by omega)), if_neg (b64char_ne_61 _ (by omega))]
    rw [b64val_b64char _ (by omega), b64val_b64char _ (by omega),
        b64val_b64char _ (by omega), b64val_b64char _ (by omega)]
    rw [ih (fun b hb => h b (by simp [hb]))]
    congr 3
    · omega
    · omega
    · omega

lemma int16ToBytes_lt (k : ℤ) : ∀ b ∈ int16ToBytes k, b < 256 := by
  intro b hb
  simp only [int16ToBytes, List.mem_cons, List.mem_singleton, List.not_mem_nil,
    or_false] at hb
  have hm : (k % 65536).toNat < 65536 := by omega
  rcases hb with rfl | rfl <;> omega

lemma int16sToBytes_lt (ks : List ℤ) : ∀ b ∈ int16sToBytes ks, b < 256 := by
  induction ks with
  | nil => simp [int16sToBytes]
  | cons k rest ih =>
    intro b hb
    rw [int16sToBytes, List.mem_append] at hb
    rcases hb with hb | hb
    · exact int16ToBytes_lt k b hb
    · exact ih b hb

lemma bytesToInt16s_int16ToBytes (k : ℤ) (h1 : -32768 ≤ k) (h2 : k ≤ 32767)
    (tail : List ℕ) :
    bytesToInt16s (int16ToBytes k ++ tail) = k :: bytesToInt16s tail := by
  simp only [int16ToBytes, List.cons_append, List.nil_append, bytesToInt16s]
  congr 1
  have hm : (k % 65536).toNat % 256 + 256 * ((k % 65536).toNat / 256)
      = (k % 65536).toNat := by omega
  split <;> omega

lemma bytesToInt16s_int16sToBytes (ks : List ℤ)
    (h : ∀ k ∈ ks, -32768 ≤ k ∧ k ≤ 32767) :
    bytesToInt16s (int16sToBytes ks) = ks := by
  induction ks with
  | nil => simp [int16sToBytes, bytesToInt16s]
  | cons k rest ih =>
    rw [int16sToBytes,
        bytesToInt16s_int16ToBytes k (h k (by simp)).1 (h k (by simp)).2,
        ih (fun x hx => h x (by simp [hx]))]

lemma quantize_range (x : ℚ) : -32768 ≤ quantize x ∧ quantize x ≤ 32767 := by
  unfold quantize
  dsimp only
  set s := max (-1 : ℚ) (min 1 x) with hs
  have hs1 : (-1 : ℚ) ≤ s := le_max_left _ _
  have hs2 : s ≤ 1 := max_le (by norm_num) (min_le_left _ _)
  split
  · rename_i hneg
    unfold truncQ
    rw [if_neg (by nlinarith)]
    have hc1 : s * 32768 ≤ (⌈s * 32768⌉ : ℚ) := Int.le_ceil _
    have hc2 : (⌈s * 32768⌉ : ℚ) < s * 32768 + 1 := Int.ceil_lt_add_one _
    constructor
    · have : (-32768 : ℚ) ≤ (⌈s * 32768⌉ : ℚ) := by nlinarith
      exact_mod_cast this
    · have h32 : (⌈s * 32768⌉ : ℚ) < 32768 := by nlinarith
      have h32i : ⌈s * 32768⌉ < 32768 := by exact_mod_cast h32
      omega
  · rename_i hnonneg
    push_neg at hnonneg
    unfold truncQ
    rw [if_pos (by nlinarith)]
    have hf1 : (⌊s * 32767⌋ : ℚ) ≤ s * 32767 := Int.floor_le _
    have hf2 : s * 32767 < (⌊s * 32767⌋ : ℚ) + 1 := Int.lt_floor_add_one _
    constructor
    · have : (-32768 : ℚ) ≤ (⌊s * 32767⌋ : ℚ) := by nlinarith
      exact_mod_cast this
    · have : (⌊s * 32767⌋ : ℚ) ≤ 32767 := by nlinarith
      exact_mod_cast this

/-- End-to-end: decoding an encoded sample list applies
`dequantize ∘ quantize` to each sample. -/
lemma codec_roundtrip (xs : List ℚ) :
    base64ToFloat32 (float32ToBase64 xs) =
      xs.map (fun x => dequantize (quantize x)) := by
  unfold base64ToFloat32 float32ToBase64
  rw [atob_btoa _ (int16sToBytes_lt _),
      bytesToInt16s_int16sToBytes _ (fun k hk => by
        rcases List.mem_map.mp hk with ⟨x, _, rfl⟩
        exact quantize_range x),
      List.map_map]
  rfl

/-- Per-sample round-trip error bound: strictly below two quantization
steps, but able to exceed one step on positive samples. -/
lemma dequantize_quantize_bound (x : ℚ) (h1 : -1 ≤ x) (h2 : x ≤ 1) :
    |dequantize (quantize x) - x| ≤ 2 / 32768 := by
  have hclamp : max (-1 : ℚ) (min 1 x) = x := by
    rw [min_eq_right h2, max_eq_right h1]
  unfold quantize dequantize
  dsimp only
  rw [hclamp]
  by_cases hx : x < 0
  · rw [if_pos hx]
    unfold truncQ
    rw [if_neg (by nlinarith)]
    have hc1 : x * 32768 ≤ (⌈x * 32768⌉ : ℚ) := Int.le_ceil _
    have hc2 : (⌈x * 32768⌉ : ℚ) < x * 32768 + 1 := Int.ceil_lt_add_one _
    rw [abs_le]
    constructor <;> [skip; skip] <;> nlinarith
  · rw [if_neg hx]
    push_neg at hx
    unfold truncQ
    rw [if_pos (by nlinarith)]
    have hf1 : (⌊x * 32767⌋ : ℚ) ≤ x * 32767 := Int.floor_le _
    have hf2 : x * 32767 < (⌊x * 32767⌋ : ℚ) + 1 := Int.lt_floor_add_one _
    rw [abs_le]
    constructor <;> [skip; skip] <;> nlinarith

/-! ## Playback scheduler (enqueueAudio / playNextChunk / clearAudioQueue) -/

/-- The mutable refs and React state the playback path touches:
`audioQueueRef`, `isPlayingRef`, `scheduledTimeRef`, and the
`isSpeaking` observable. Times are rationals (the `AudioContext`
clock reading is passed in at each step). -/
structure PlayerState where
  audioQueue : List (List ℚ)
  isPlaying : Bool
  isSpeaking : Bool
  scheduledTime : ℚ
deriving DecidableEq

/-- `playNextChunk`, with `now` the reading of `ctx.currentTime`.
Returns the new state and the list of `(buffer, startTime)` pairs
handed to the output device (`source.start(...)`) during this call. -/
def playNextChunk (now : ℚ) (st : PlayerState) : PlayerState × List (List ℚ × ℚ) :=
  match st.audioQueue with
  | [] => ({ st with isPlaying := false, isSpeaking := false }, [])
  | audioData :: rest =>
    let start := if st.scheduledTime < now then now else st.scheduledTime
    ({ st with isPlaying := true, isSpeaking := true,
               audioQueue := rest,
               scheduledTime := start + (audioData.length : ℚ) / 24000 },
     [(audioData, start)])

/-- `enqueueAudio`: push onto the queue, and kick the output loop when
it is not already running. -/
def enqueueAudio (now : ℚ) (audioData : List ℚ) (st : PlayerState) :
    PlayerState × List (List ℚ × ℚ) :=
  let st1 := { st with audioQueue := st.audioQueue ++ [audioData] }
  if st.isPlaying then (st1, []) else playNextChunk now st1

/-- `clearAudioQueue` (the interruption handler's mutation): empty the
queue and zero the cursor. `isPlayingRef` is left untouched. -/
def clearAudioQueue (st : PlayerState) : PlayerState :=
  { st with audioQueue := [], scheduledTime := 0 }

/-- Externally triggered scheduler steps: an `enqueueAudio` call (from
inbound audio), a `source.onended` completion callback (which re-enters
`playNextChunk`), or the interruption flush. Each carries the audio
clock reading at the moment it runs. -/
inductive Ev
  | enqueue (audioData : List ℚ) (now : ℚ)
  | ended (now : ℚ)
  | interrupt
deriving DecidableEq

def stepEv (st : PlayerState) : Ev → PlayerState × List (List ℚ × ℚ)
  | .enqueue audioData now => enqueueAudio now audioData st
  | .ended now => playNextChunk now st
  | .interrupt => (clearAudioQueue st, [])

/-- Run a sequence of scheduler steps, accumulating the blocks handed
to the output device in order. -/
def runEvents (st : PlayerState) : List Ev → PlayerState × List (List ℚ × ℚ)
  | [] => (st, [])
  | e :: rest =>
    let p := stepEv st e
    let q := runEvents p.1 rest
    (q.1, p.2 ++ q.2)

/-- The blocks enqueued by a step sequence, in order. -/
def enqueuedBlocks : List Ev → List (List ℚ)
  | [] => []
  | .enqueue audioData _ :: rest => audioData :: enqueuedBlocks rest
  | _ :: rest => enqueuedBlocks rest

/-- `ChainFrom c outs`: every output starts no earlier than the cursor
value `c`, and each later output starts no earlier than the previous
output's start plus its duration (`length / 24000` seconds). -/
def ChainFrom (c : ℚ) : List (List ℚ × ℚ) → Prop
  | [] => True
  | (audioData, s) :: rest =>
    c ≤ s ∧ ChainFrom (s + (audioData.length : ℚ) / 24000) rest

/-- The cursor value reached after chaining the given outputs from `c`. -/
def chainEnd (c : ℚ) : List (List ℚ × ℚ) → ℚ
  | [] => c
  | (audioData, s) :: rest => chainEnd (s + (audioData.length : ℚ) / 24000) rest

/-! ## TransportSession (connect / send gating) -/

/-- WebSocket `readyState` values. -/
inductive ReadyState
  | CONNECTING
  | OPEN
  | CLOSING
  | CLOSED
deriving DecidableEq

/-- One entry of `realtimeInput.mediaChunks` as put on the wire. -/
structure MediaChunk where
  mimeType : String
  data : List ℕ
deriving DecidableEq

/-- The microphone worklet `port.onmessage` handler: encode the block,
transmit it only when `wsRef.current?.readyState === WebSocket.OPEN`.
Returns the chunks actually sent on the connection. -/
def workletOnMessage (ws : Option ReadyState) (inputData : List ℚ) : List MediaChunk :=
  if ws = some ReadyState.OPEN then
    [⟨"audio/pcm;rate=16000", float32ToBase64 inputData⟩]
  else []

/-- `sendVideoFrame`: gated first by the video feature flag, then by the
same `readyState === OPEN` check. Returns the chunks actually sent. -/
def sendVideoFrame (isVideoEnabled : Bool) (ws : Option ReadyState)
    (base64Image : List ℕ) : List MediaChunk :=
  if !isVideoEnabled then []
  else if ws = some ReadyState.OPEN then [⟨"image/jpeg", base64Image⟩]
  else []

/-- The hook state `connect` reads and writes: the socket ref (by its
`readyState`), the `error` and `isConnected` observables, and the log. -/
structure GeminiState where
  ws : Option ReadyState
  error : Option String
  isConnected : Bool
  logs : List String
deriving DecidableEq

/-- `addLog`: `prev.slice(-19)` keeps the last 19 entries, then the new
message is appended (20 retained in total). -/
def addLog (logs : List String) (message : String) : List String :=
  logs.drop (logs.length - 19) ++ [message]

/-- `connect`: missing-key check first (sets the error observable and
returns), then the already-open no-op check, else a fresh WebSocket is
created (readyState `CONNECTING`). -/
def connect (apiKey : String) (st : GeminiState) : GeminiState :=
  if apiKey = "" then
    { st with error := some "API Key is missing",
              logs := addLog st.logs "Error: API Key is missing" }
  else if st.ws = some ReadyState.OPEN then st
  else
    { st with ws := some ReadyState.CONNECTING,
              logs := addLog st.logs "Connecting to Gemini Live..." }

/-! ## Inbound message dispatch (ws.onmessage) -/

/-- One element of `serverContent.modelTurn.parts`. -/
structure InlinePart where
  inlineData : Option (List ℕ)
deriving DecidableEq

structure ModelTurn where
  parts : List InlinePart
deriving DecidableEq

structure ServerContent where
  modelTurn : Option ModelTurn
  interrupted : Bool
deriving DecidableEq

structure ServerMsg where
  serverContent : Option ServerContent
deriving DecidableEq

/-- The optional chain `data.serverContent?.modelTurn?.parts?.[0]?.inlineData`. -/
def audioPayload (m : ServerMsg) : Option (List ℕ) :=
  match m.serverContent with
  | some sc =>
    match sc.modelTurn with
    | some mt =>
      match mt.parts with
      | p :: _ => p.inlineData
      | [] => none
    | none => none
  | none => none

def isInterrupted (m : ServerMsg) : Bool :=
  match m.serverContent with
  | some sc => sc.interrupted
  | none => false

/-- `ws.onmessage` after successful JSON parse: decode and enqueue the
first part's inline data when present, then flush on an interruption
signal. Returns the new player state and the blocks handed to the
output device during the call. -/
def handleServerMessage (now : ℚ) (m : ServerMsg) (st : PlayerState) :
    PlayerState × List (List ℚ × ℚ) :=
  let p1 :=
    match audioPayload m with
    | some d => enqueueAudio now (base64ToFloat32 d) st
    | none => (st, [])
  if isInterrupted m then (clearAudioQueue p1.1, p1.2) else p1

/-! ## Emergency SMS server action (sendEmergencySMS) -/

/-- JavaScript falsiness of an optional environment string: `undefined`
or the empty string. -/
def isMissing : Option String → Bool
  | none => true
  | some s => s = ""

/-- JavaScript truthiness of an optional number (`latitude && longitude`):
present and non-zero. -/
def truthy : Option ℚ → Bool
  | none => false
  | some v => v ≠ 0

/-- The result object of `sendEmergencySMS`. -/
structure SMSResult where
  success : Bool
  sid : Option String
  error : Option String
deriving DecidableEq

/-- An SMS handed to the Twilio client: whether the body carries the
location link, and the from/to numbers. -/
structure SentSMS where
  hasLocation : Bool
  fromNumber : String
  toNumber : String
deriving DecidableEq

/-- `sendEmergencySMS`. The four environment values and the outcome of
the external `client.messages.create` call (`Except.ok sid` on success,
`Except.error _` when the Twilio call throws) are passed explicitly.
Returns the result object and the list of messages actually handed to
the Twilio client. -/
def sendEmergencySMS (accountSid authToken fromNumber toNumber : Option String)
    (latitude longitude : Option ℚ) (outcome : Except String String) :
    SMSResult × List SentSMS :=
  if isMissing accountSid || isMissing authToken ||
     isMissing fromNumber || isMissing toNumber then
    (⟨false, none, some "Configuration missing"⟩, [])
  else
    let msg : SentSMS :=
      ⟨truthy latitude && truthy longitude, fromNumber.getD "", toNumber.getD ""⟩
    match outcome with
    | .ok sid => (⟨true, some sid, none⟩, [msg])
    | .error _ => (⟨false, none, some "Failed to send SMS"⟩, [msg])

/-! ### Scheduler lemmas -/

/-- The blocks a single non-interrupt step enqueues. -/
def enqOf : Ev → List (List ℚ)
  | .enqueue audioData _ => [audioData]
  | _ => []

lemma enqueuedBlocks_cons (e : Ev) (rest : List Ev) :
    enqueuedBlocks (e :: rest) = enqOf e ++ enqueuedBlocks rest := by
  cases e <;> simp [enqueuedBlocks, enqOf]

lemma chainFrom_le_chainEnd (outs : List (List ℚ × ℚ)) :
    ∀ c : ℚ, ChainFrom c outs → c ≤ chainEnd c outs := by
  induction outs with
  | nil => intro c _; simp [chainEnd]
  | cons p rest ih =>
    obtain ⟨audioData, s⟩ := p
    intro c h
    obtain ⟨h1, h2⟩ := h
    have hd : (0 : ℚ) ≤ (audioData.length : ℚ) / 24000 := by positivity
    have := ih (s + (audioData.length : ℚ) / 24000) h2
    simp only [chainEnd]
    linarith

lemma stepEv_cursor (st : PlayerState) (e : Ev) (h : e ≠ .interrupt) :
    ((stepEv st e).2 = [] ∧ (stepEv st e).1.scheduledTime = st.scheduledTime) ∨
    (∃ audioData s, (stepEv st e).2 = [(audioData, s)] ∧ st.scheduledTime ≤ s ∧
      (stepEv st e).1.scheduledTime = s + (audioData.length : ℚ) / 24000) := by
  cases e with
  | interrupt => exact absurd rfl h
  | ended now =>
    simp only [stepEv, playNextChunk]
    cases hq : st.audioQueue with
    | nil => exact Or.inl ⟨rfl, rfl⟩
    | cons audioData rest =>
      refine Or.inr ⟨audioData, _, rfl, ?_, rfl⟩
      split <;> [linarith; exact le_refl _]
  | enqueue audioData now =>
    simp only [stepEv, enqueueAudio]
    by_cases hp : st.isPlaying
    · rw [if_pos hp]
      exact Or.inl ⟨rfl, rfl⟩
    · rw [if_neg hp]
      simp only [playNextChunk]
      cases hq : st.audioQueue with
      | nil =>
        simp only [List.nil_append]
        refine Or.inr ⟨audioData, _, rfl, ?_, rfl⟩
        split <;> [linarith; exact le_refl _]
      | cons a t =>
        simp only [List.cons_append]
        refine Or.inr ⟨a, _, rfl, ?_, rfl⟩
        split <;> [linarith; exact le_refl _]

lemma stepEv_queue (st : PlayerState) (e : Ev) (h : e ≠ .interrupt) :
    (stepEv st e).2.map Prod.fst ++ (stepEv st e).1.audioQueue
      = st.audioQueue ++ enqOf e := by
  cases e with
  | interrupt => exact absurd rfl h
  | ended now =>
    simp only [stepEv, playNextChunk, enqOf]
    cases hq : st.audioQueue with
    | nil => simp
    | cons audioData rest => simp
  | enqueue audioData now =>
    simp only [stepEv, enqueueAudio, enqOf]
    by_cases hp : st.isPlaying
    · rw [if_pos hp]; simp
    · rw [if_neg hp]
      simp only [playNextChunk]
      cases hq : st.audioQueue with
      | nil => simp
      | cons a t => simp

lemma runEvents_cons (st : PlayerState) (e : Ev) (rest : List Ev) :
    runEvents st (e :: rest) =
      ((runEvents (stepEv st e).1 rest).1,
       (stepEv st e).2 ++ (runEvents (stepEv st e).1 rest).2) := rfl

lemma runEvents_cursor (evs : List Ev) :
    ∀ st : PlayerState, (∀ e ∈ evs, e ≠ Ev.interrupt) →
      ChainFrom st.scheduledTime (runEvents st evs).2 ∧
      (runEvents st evs).1.scheduledTime
        = chainEnd st.scheduledTime (runEvents st evs).2 := by
  induction evs with
  | nil => intro st _; exact ⟨trivial, rfl⟩
  | cons e rest ih =>
    intro st h
    have he : e ≠ Ev.interrupt := h e (by simp)
    have hrest : ∀ x ∈ rest, x ≠ Ev.interrupt := fun x hx => h x (by simp [hx])
    obtain ⟨ihc, ihe⟩ := ih (stepEv st e).1 hrest
    rw [runEvents_cons]
    rcases stepEv_cursor st e he with ⟨h0, hcur⟩ | ⟨audioData, s, h0, hle, hcur⟩
    · rw [h0]
      simp only [List.nil_append]
      rw [hcur] at ihc ihe
      exact ⟨ihc, ihe⟩
    · rw [h0]
      simp only [List.cons_append, List.nil_append]
      rw [hcur] at ihc ihe
      exact ⟨⟨hle, ihc⟩, by simpa [chainEnd] using ihe⟩

lemma runEvents_queue (evs : List Ev) :
    ∀ st : PlayerState, (∀ e ∈ evs, e ≠ Ev.interrupt) →
      (runEvents st evs).2.map Prod.fst ++ (runEvents st evs).1.audioQueue
        = st.audioQueue ++ enqueuedBlocks evs := by
  induction evs with
  | nil => intro st _; simp [runEvents, enqueuedBlocks]
  | cons e rest ih =>
    intro st h
    have he : e ≠ Ev.interrupt := h e (by simp)
    have hrest : ∀ x ∈ rest, x ≠ Ev.interrupt := fun x hx => h x (by simp [hx])
    rw [runEvents_cons]
    simp only [List.map_append]
    rw [List.append_assoc, ih (stepEv st e).1 hrest, ← List.append_assoc,
        stepEv_queue st e he, enqueuedBlocks_cons, List.append_assoc]

/-! ### Concrete codec evaluations -/

lemma quantize_one : quantize 1 = 32767 := by
  norm_num [quantize, truncQ]

lemma quantize_negOne : quantize (-1) = -32768 := by
  norm_num [quantize, truncQ]
  rw [Int.ceil_eq_iff]
  norm_num

lemma quantize_zero : quantize 0 = 0 := by
  norm_num [quantize, truncQ]

lemma quantize_near_one : quantize (65535 / 65536) = 32766 := by
  norm_num [quantize, truncQ]

/-! ## Claim theorems -/

/-- Claim C1, counterexample: the round-trip quantization error is NOT
bounded by 1/32768 for every sample array with values in [-1, 1] — at
the single-sample array [65535/65536] (a representable float32 value)
the decoded sample is 16383/16384 and the error is 3/65536 > 1/32768. -/
theorem roundtrip_error_one_step_cex :
    ¬ List.Forall₂ (fun y x => |y - x| ≤ 1 / 32768)
      (base64ToFloat32 (float32ToBase64 [65535 / 65536])) [65535 / 65536] := by
  rw [codec_roundtrip]
  simp only [List.map_cons, List.map_nil, List.forall₂_cons,
    List.forall₂_nil_left_iff, and_true]
  rw [quantize_near_one]
  intro hcontra
  rw [show dequantize 32766 = 16383 / 16384 by norm_num [dequantize]] at hcontra
  rw [show |(16383 / 16384 : ℚ) - 65535 / 65536| = 3 / 65536 by
    rw [abs_sub_comm, abs_of_nonneg (by norm_num)]; norm_num] at hcontra
  norm_num at hcontra

/-- Claim C1, amended: for every sample array x with all values in
[-1, 1], the pointwise absolute difference between
`base64ToFloat32 (float32ToBase64 x)` and x is at most 2/32768 (two
quantization steps; one step does not suffice because non-negative
samples are scaled by 32767 on encode but divided by 32768 on decode,
and the conversion truncates rather than rounds). -/
theorem roundtrip_error_two_steps (xs : List ℚ)
    (h : ∀ x ∈ xs, -1 ≤ x ∧ x ≤ 1) :
    List.Forall₂ (fun y x => |y - x| ≤ 2 / 32768)
      (base64ToFloat32 (float32ToBase64 xs)) xs := by
  induction xs with
  | nil =>
    rw [codec_roundtrip]
    exact List.Forall₂.nil
  | cons a l ih =>
    rw [codec_roundtrip]
    have hl := ih (fun x hx => h x (by simp [hx]))
    rw [codec_roundtrip] at hl
    exact List.Forall₂.cons
      (dequantize_quantize_bound a (h a (by simp)).1 (h a (by simp)).2) hl

theorem roundtrip_error_two_steps_witness :
    (∀ x ∈ [(1 : ℚ), -1/2, 0], -1 ≤ x ∧ x ≤ 1) ∧
    List.Forall₂ (fun y x => |y - x| ≤ 2 / 32768)
      (base64ToFloat32 (float32ToBase64 [(1 : ℚ), -1/2, 0])) [(1 : ℚ), -1/2, 0] :=
  ⟨by norm_num, roundtrip_error_two_steps [(1 : ℚ), -1/2, 0] (by norm_num)⟩

/-- Claim C2: the encoder clamps each sample to [-1, 1], scales negative
samples by 32768 and non-negative samples by 32767 into a 16-bit signed
integer, and frames the bytes as base64; decoding an encoded block that
contains the samples 1.0 and -1.0 yields 32767/32768 (≥ 0.99996) and
-1.0 (≤ -1.0) respectively, and an all-zeros block decodes to all
zeros. -/
theorem codec_concrete_spec :
    (∀ x : ℚ, quantize x =
      if max (-1 : ℚ) (min 1 x) < 0 then truncQ (max (-1 : ℚ) (min 1 x) * 32768)
      else truncQ (max (-1 : ℚ) (min 1 x) * 32767)) ∧
    (∀ xs : List ℚ, float32ToBase64 xs = btoa (int16sToBytes (xs.map quantize))) ∧
    base64ToFloat32 (float32ToBase64 [1, -1]) = [32767 / 32768, -1] ∧
    ((0.99996 : ℚ) ≤ 32767 / 32768 ∧ (-1 : ℚ) ≤ -1) ∧
    (∀ n : ℕ, base64ToFloat32 (float32ToBase64 (List.replicate n 0))
      = List.replicate n 0) := by
  refine ⟨fun x => rfl, fun xs => rfl, ?_, by norm_num, fun n => ?_⟩
  · rw [codec_roundtrip]
    simp only [List.map_cons, List.map_nil, quantize_one, quantize_negOne]
    norm_num [dequantize]
  · rw [codec_roundtrip, List.map_replicate, quantize_zero]
    norm_num [dequantize]

/-- Claim C3: when `playNextChunk` schedules a block, a cursor behind
the clock is first caught up to `now`, the block starts exactly at the
(possibly caught-up) cursor, and the cursor then advances by the block's
duration `sampleCount / 24000`; consequently a block enqueued while the
scheduler is idle with a stale cursor starts at `now`. -/
theorem playNextChunk_catchup (st stIdle : PlayerState)
    (audioData blockIdle : List ℚ) (rest : List (List ℚ)) (now : ℚ)
    (hq : st.audioQueue = audioData :: rest)
    (hip : stIdle.isPlaying = false) (hqe : stIdle.audioQueue = [])
    (hstale : stIdle.scheduledTime < now) :
    (playNextChunk now st).2
      = [(audioData, if st.scheduledTime < now then now else st.scheduledTime)] ∧
    (playNextChunk now st).1.scheduledTime
      = (if st.scheduledTime < now then now else st.scheduledTime)
        + (audioData.length : ℚ) / 24000 ∧
    (st.scheduledTime < now → (playNextChunk now st).2 = [(audioData, now)]) ∧
    (enqueueAudio now blockIdle stIdle).2 = [(blockIdle, now)] := by
  refine ⟨?_, ?_, fun h => ?_, ?_⟩
  · simp only [playNextChunk, hq]
  · simp only [playNextChunk, hq]
  · simp only [playNextChunk, hq, if_pos h]
  · simp only [enqueueAudio, hip, Bool.false_eq_true, if_false, playNextChunk,
      hqe, List.nil_append, if_pos hstale]

theorem playNextChunk_catchup_witness :
    (playNextChunk 7 (⟨[[0]], true, true, 5⟩ : PlayerState)).2 = [([0], 7)] ∧
    (enqueueAudio 7 [1] (⟨[], false, false, 3⟩ : PlayerState)).2 = [([1], 7)] :=
  ⟨(playNextChunk_catchup ⟨[[0]], true, true, 5⟩ ⟨[], false, false, 3⟩ [0] [1] [] 7
      rfl rfl rfl (by norm_num)).2.2.1 (by norm_num),
   (playNextChunk_catchup ⟨[[0]], true, true, 5⟩ ⟨[], false, false, 3⟩ [0] [1] [] 7
      rfl rfl rfl (by norm_num)).2.2.2⟩

/-- Claim C4: immediately after `clearAudioQueue` (the interruption
handler) the playback queue is empty and the cursor is zero; a block
enqueued afterwards is scheduled at the clock reading current when it
reaches the output loop (immediately if the loop was idle, at the next
`onended` re-entry otherwise), never at a pre-interruption cursor. -/
theorem interruption_flush (st : PlayerState) (audioData : List ℚ)
    (now nowLater : ℚ) (h0 : 0 ≤ now) (h1 : 0 ≤ nowLater) :
    (clearAudioQueue st).audioQueue = [] ∧
    (clearAudioQueue st).scheduledTime = 0 ∧
    (st.isPlaying = false →
      (enqueueAudio now audioData (clearAudioQueue st)).2 = [(audioData, now)]) ∧
    (st.isPlaying = true →
      (enqueueAudio now audioData (clearAudioQueue st)).2 = [] ∧
      (playNextChunk nowLater (enqueueAudio now audioData (clearAudioQueue st)).1).2
        = [(audioData, nowLater)]) := by
  refine ⟨rfl, rfl, fun hip => ?_, fun hip => ⟨?_, ?_⟩⟩
  · simp only [enqueueAudio, clearAudioQueue, hip, Bool.false_eq_true, if_false,
      playNextChunk, List.nil_append]
    split
    · rfl
    · rename_i hlt
      have : now = 0 := le_antisymm (not_lt.mp hlt) h0
      rw [this]
  · simp only [enqueueAudio, clearAudioQueue, hip, if_true]
  · simp only [enqueueAudio, clearAudioQueue, hip, if_true, playNextChunk,
      List.nil_append]
    split
    · rfl
    · rename_i hlt
      have : nowLater = 0 := le_antisymm (not_lt.mp hlt) h1
      rw [this]

theorem interruption_flush_witness :
    (clearAudioQueue (⟨[[0], [1]], true, true, 9⟩ : PlayerState)).audioQueue = [] ∧
    (clearAudioQueue (⟨[[0], [1]], true, true, 9⟩ : PlayerState)).scheduledTime = 0 ∧
    (enqueueAudio 2 [5] (clearAudioQueue (⟨[[0], [1]], true, true, 9⟩ : PlayerState))).2
      = [] ∧
    (playNextChunk 4
      (enqueueAudio 2 [5]
        (clearAudioQueue (⟨[[0], [1]], true, true, 9⟩ : PlayerState))).1).2
      = [([5], 4)] ∧
    (enqueueAudio 2 [5] (clearAudioQueue (⟨[[0]], false, false, 9⟩ : PlayerState))).2
      = [([5], 2)] := by
  have h1 := interruption_flush ⟨[[0], [1]], true, true, 9⟩ [5] 2 4
    (by norm_num) (by norm_num)
  have h2 := interruption_flush ⟨[[0]], false, false, 9⟩ [5] 2 4
    (by norm_num) (by norm_num)
  exact ⟨h1.1, h1.2.1, (h1.2.2.2 rfl).1, (h1.2.2.2 rfl).2, h2.2.2.1 rfl⟩

/-- Claim C5: over any sequence of enqueue and playback-loop steps with
no interruption, the cursor `scheduledTimeRef` never decreases, and each
scheduled block starts no earlier than the previous block's start plus
the previous block's duration. -/
theorem cursor_monotone (st : PlayerState) (evs : List Ev)
    (h : ∀ e ∈ evs, e ≠ Ev.interrupt) :
    st.scheduledTime ≤ (runEvents st evs).1.scheduledTime ∧
    ChainFrom st.scheduledTime (runEvents st evs).2 := by
  obtain ⟨hc, he⟩ := runEvents_cursor evs st h
  exact ⟨he ▸ chainFrom_le_chainEnd _ _ hc, hc⟩

theorem cursor_monotone_witness :
    (0 : ℚ) ≤ (runEvents ⟨[], false, false, 0⟩
      [Ev.enqueue [0, 0] 1, Ev.ended 2, Ev.enqueue [1] 0]).1.scheduledTime ∧
    ChainFrom (0 : ℚ) (runEvents ⟨[], false, false, 0⟩
      [Ev.enqueue [0, 0] 1, Ev.ended 2, Ev.enqueue [1] 0]).2 :=
  cursor_monotone ⟨[], false, false, 0⟩
    [Ev.enqueue [0, 0] 1, Ev.ended 2, Ev.enqueue [1] 0] (by simp)

/-- Claim C6: with no interruption, blocks reach the output device in
exactly the order they were enqueued — the output sequence followed by
the residual queue equals the initial queue followed by the enqueue
sequence, and when the queue has drained the output sequence equals the
enqueue sequence (FIFO: no reordering, duplication or loss). -/
theorem fifo_order (st : PlayerState) (evs : List Ev)
    (h : ∀ e ∈ evs, e ≠ Ev.interrupt) :
    (runEvents st evs).2.map Prod.fst ++ (runEvents st evs).1.audioQueue
      = st.audioQueue ++ enqueuedBlocks evs ∧
    (st.audioQueue = [] → (runEvents st evs).1.audioQueue = [] →
      (runEvents st evs).2.map Prod.fst = enqueuedBlocks evs) := by
  have hq := runEvents_queue evs st h
  refine ⟨hq, fun h1 h2 => ?_⟩
  rw [h1, List.nil_append] at hq
  rw [h2, List.append_nil] at hq
  exact hq

theorem fifo_order_witness :
    (runEvents ⟨[], false, false, 0⟩
        [Ev.enqueue [0] 1, Ev.enqueue [1, 1] 1, Ev.ended 2, Ev.ended 3]).2.map
        Prod.fst ++
      (runEvents ⟨[], false, false, 0⟩
        [Ev.enqueue [0] 1, Ev.enqueue [1, 1] 1, Ev.ended 2, Ev.ended 3]).1.audioQueue
      = [[0], [1, 1]] :=
  (fifo_order ⟨[], false, false, 0⟩
    [Ev.enqueue [0] 1, Ev.enqueue [1, 1] 1, Ev.ended 2, Ev.ended 3] (by simp)).1

/-- Claim C7: the microphone worklet message handler and `sendVideoFrame`
transmit on the connection only while the socket's readyState is OPEN;
in any other state nothing is transmitted or queued (and, being total
functions, they raise nothing); when OPEN the audio handler transmits
exactly the encoded chunk. -/
theorem send_gating (ws : Option ReadyState) (inputData : List ℚ)
    (isVideoEnabled : Bool) (base64Image : List ℕ)
    (h : ws ≠ some ReadyState.OPEN) :
    workletOnMessage ws inputData = [] ∧
    sendVideoFrame isVideoEnabled ws base64Image = [] ∧
    workletOnMessage (some ReadyState.OPEN) inputData
      = [⟨"audio/pcm;rate=16000", float32ToBase64 inputData⟩] := by
  refine ⟨?_, ?_, ?_⟩
  · simp [workletOnMessage, h]
  · cases isVideoEnabled <;> simp [sendVideoFrame, h]
  · simp [workletOnMessage]

theorem send_gating_witness :
    workletOnMessage (some ReadyState.CLOSED) [0] = [] ∧
    sendVideoFrame true (some ReadyState.CLOSED) [65] = [] ∧
    workletOnMessage (some ReadyState.OPEN) [0]
      = [⟨"audio/pcm;rate=16000", float32ToBase64 [0]⟩] :=
  send_gating (some ReadyState.CLOSED) [0] true [65] (by simp)

/-- Claim C8, counterexample: `connect` is not a no-op in every state
with an already-open socket — with the socket OPEN and the apiKey
absent, the missing-key branch runs first and mutates the error
observable and the log, so the state changes. -/
theorem connect_missing_key_open_cex :
    connect "" ⟨some ReadyState.OPEN, none, true, []⟩
      ≠ ⟨some ReadyState.OPEN, none, true, []⟩ := by
  intro h
  have h2 := congrArg GeminiState.error h
  simp [connect, addLog] at h2

/-- Claim C8, amended: `connect` is a no-op when the socket is already
OPEN and the credential is present; when the credential (apiKey) is
absent — even if a socket is already OPEN — it sets the error
observable to the missing-key message without creating a WebSocket or
changing the connection state. -/
theorem connect_spec (apiKey : String) (st : GeminiState) :
    (apiKey ≠ "" → st.ws = some ReadyState.OPEN → connect apiKey st = st) ∧
    (apiKey = "" →
      (connect apiKey st).error = some "API Key is missing" ∧
      (connect apiKey st).ws = st.ws ∧
      (connect apiKey st).isConnected = st.isConnected) := by
  constructor
  · intro hk hw
    simp [connect, hk, hw]
  · intro hk
    simp [connect, hk]

theorem connect_spec_witness :
    connect "key" ⟨some ReadyState.OPEN, none, true, []⟩
      = ⟨some ReadyState.OPEN, none, true, []⟩ ∧
    (connect "" (⟨none, none, false, []⟩ : GeminiState)).error
      = some "API Key is missing" ∧
    (connect "" (⟨none, none, false, []⟩ : GeminiState)).ws = none :=
  ⟨(connect_spec "key" ⟨some ReadyState.OPEN, none, true, []⟩).1 (by simp) rfl,
   ((connect_spec "" ⟨none, none, false, []⟩).2 rfl).1,
   ((connect_spec "" ⟨none, none, false, []⟩).2 rfl).2.1⟩

/-- Claim C9, counterexample: the location link is NOT included exactly
when both coordinates are non-null — the source tests JavaScript
truthiness (`if (latitude && longitude)`), so with latitude = 0 (a
non-null coordinate on the equator) and longitude = 1 the sent message
carries no location link. -/
theorem sms_zero_coordinate_cex :
    ¬ ((sendEmergencySMS (some "AC1") (some "token") (some "+15550000000")
        (some "+15551111111") (some 0) (some 1) (Except.ok "SM1")).2.map
        SentSMS.hasLocation = [true]) := by
  simp [sendEmergencySMS, isMissing, truthy]

/-- Claim C9, amended: `sendEmergencySMS` always yields a record with a
success flag, an optional reference (sid) and an optional error: when
any of the four required configuration values is absent or empty it
returns success = false with an error string and hands nothing to the
Twilio client; on a successful send it returns success = true with the
string reference; and the location link is included exactly when both
latitude and longitude are non-null AND non-zero (JS truthiness). -/
theorem sendEmergencySMS_spec
    (accountSid authToken fromNumber toNumber : Option String)
    (latitude longitude : Option ℚ) (outcome : Except String String) :
    ((isMissing accountSid || isMissing authToken || isMissing fromNumber ||
        isMissing toNumber) = true →
      sendEmergencySMS accountSid authToken fromNumber toNumber latitude
          longitude outcome
        = (⟨false, none, some "Configuration missing"⟩, [])) ∧
    ((isMissing accountSid || isMissing authToken || isMissing fromNumber ||
        isMissing toNumber) = false →
      (∀ sid, outcome = .ok sid →
        (sendEmergencySMS accountSid authToken fromNumber toNumber latitude
            longitude outcome).1 = ⟨true, some sid, none⟩) ∧
      (∀ msg, outcome = .error msg →
        (sendEmergencySMS accountSid authToken fromNumber toNumber latitude
            longitude outcome).1 = ⟨false, none, some "Failed to send SMS"⟩)) ∧
    (∀ m ∈ (sendEmergencySMS accountSid authToken fromNumber toNumber latitude
        longitude outcome).2,
      m.hasLocation = (truthy latitude && truthy longitude)) := by
  refine ⟨fun hmiss => ?_, fun hok => ⟨fun sid hsid => ?_, fun msg hmsg => ?_⟩,
    fun m hm => ?_⟩
  · simp [sendEmergencySMS, hmiss]
  · subst hsid
    simp [sendEmergencySMS, hok]
  · subst hmsg
    simp [sendEmergencySMS, hok]
  · by_cases hmiss : (isMissing accountSid || isMissing authToken ||
      isMissing fromNumber || isMissing toNumber) = true
    · simp [sendEmergencySMS, hmiss] at hm
    · rw [Bool.not_eq_true] at hmiss
      cases outcome with
      | ok sid =>
        simp [sendEmergencySMS, hmiss] at hm
        rw [hm]
      | error msg =>
        simp [sendEmergencySMS, hmiss] at hm
        rw [hm]

theorem sendEmergencySMS_spec_witness :
    sendEmergencySMS none none none none (some 1) (some 2) (Except.ok "SM1")
      = (⟨false, none, some "Configuration missing"⟩, []) ∧
    (sendEmergencySMS (some "AC1") (some "token") (some "+15550000000")
        (some "+15551111111") (some 1) (some 2) (Except.ok "SM1")).1
      = ⟨true, some "SM1", none⟩ :=
  ⟨(sendEmergencySMS_spec none none none none (some 1) (some 2)
      (Except.ok "SM1")).1 (by simp [isMissing]),
   ((sendEmergencySMS_spec (some "AC1") (some "token") (some "+15550000000")
      (some "+15551111111") (some 1) (some 2) (Except.ok "SM1")).2.1
      (by simp [isMissing])).1 "SM1" rfl⟩

/-- Claim C10: for an inbound server audio turn whose modelTurn carries
several parts, only the first part's inline data is decoded and
enqueued — the handler's result is unchanged when all parts after the
first are dropped, the extracted payload is exactly the first part's
inline data, and a non-interrupting message whose first part carries
data `d` acts on the player state exactly as
`enqueueAudio (base64ToFloat32 d)`. -/
theorem modelTurn_first_part_only (now : ℚ) (st : PlayerState)
    (p : InlinePart) (rest : List InlinePart) (interrupted : Bool)
    (d : List ℕ) :
    handleServerMessage now ⟨some ⟨some ⟨p :: rest⟩, interrupted⟩⟩ st
      = handleServerMessage now ⟨some ⟨some ⟨[p]⟩, interrupted⟩⟩ st ∧
    audioPayload ⟨some ⟨some ⟨p :: rest⟩, interrupted⟩⟩ = p.inlineData ∧
    handleServerMessage now ⟨some ⟨some ⟨⟨some d⟩ :: rest⟩, false⟩⟩ st
      = enqueueAudio now (base64ToFloat32 d) st := by
  refine ⟨rfl, rfl, ?_⟩
  simp [handleServerMessage, audioPayload, isInterrupted]

end BlindAI
